import Mathlib

/-!
Verification of the core of the universal-hamiltonian-framework repository.

The numeric engine (`src/core/__init__.py`: `PhaseSpace`, `HamiltonianSystem`
with its velocity-Verlet integrator), the symbolic engine
(`src/compiler/symbolic_engine.py`: `SymbolicHamiltonian`), and the
declarative system builder (`src/compiler/hamiltonian_dsl.py`:
`define_system`) are embedded shallowly: machine floats become exact
rationals (`ℚ`), numpy vectors become `List ℚ`, Python exceptions become an
`Except` error type, and the computer-algebra layer becomes a small
expression datatype with symbolic differentiation and an algebraic
simplifier.  Mutable numpy arrays are additionally modelled once more with
an explicit store of buffers in order to settle the frame property of
`evolve`.
-/

/-- Exception taxonomy.  The first five constructors are the Python
exceptions the embedded code actually raises; `configurationError` and
`symbolicStateError` are the error classes named by the specification (they
occur nowhere in the source) and are included so that statements about them
can be written down. -/
inductive PyError where
  | assertionError
  | valueError
  | zeroDivisionError
  | notImplementedError
  | sympifyError
  | configurationError
  | symbolicStateError
deriving DecidableEq, Repr

deriving instance DecidableEq for Except

/-- Componentwise vector sum, `a + b` on numpy arrays of equal shape. -/
def vadd (a b : List ℚ) : List ℚ := List.zipWith (· + ·) a b

/-- Scalar times vector, `c * v` on a numpy array. -/
def vscale (c : ℚ) (v : List ℚ) : List ℚ := v.map (fun x => c * x)

/-- Componentwise vector quotient, `a / b` on numpy arrays of equal shape. -/
def vdiv (a b : List ℚ) : List ℚ := List.zipWith (· / ·) a b

/-- Phase-space point, the `PhaseSpace` dataclass: positions `q` and
momenta `p`. -/
structure PhaseSpace where
  q : List ℚ
  p : List ℚ
deriving DecidableEq, Repr

/-- Constructor including the `__post_init__` shape check: the Python code
runs `assert self.q.shape == self.p.shape`, raising `AssertionError` on
mismatch. -/
def mkPhaseSpace (q p : List ℚ) : Except PyError PhaseSpace :=
  if q.length = p.length then .ok ⟨q, p⟩ else .error .assertionError

/-- Deep copy, `PhaseSpace.copy`; at the level of values a copy is equal to
the original (independence of the buffers is treated by the store model
below). -/
def PhaseSpace.copy (s : PhaseSpace) : PhaseSpace := ⟨s.q, s.p⟩

/-- Default kinetic energy of `HamiltonianSystem`:
`np.sum(p**2 / (2 * self.mass))`. -/
def kineticE (mass p : List ℚ) : ℚ :=
  (List.zipWith (fun pi mi => pi ^ 2 / (2 * mi)) p mass).sum

/-- Total energy `HamiltonianSystem.hamiltonian`: kinetic plus potential. -/
def hamiltonianE (mass : List ℚ) (potential : List ℚ → ℚ)
    (q p : List ℚ) : ℚ :=
  kineticE mass p + potential q

/-- Finite-difference step used by the default `force`: `epsilon = 1e-7`. -/
def eps : ℚ := 1 / 10 ^ 7

/-- Default numeric force of `HamiltonianSystem.force` (value level): for
each coordinate `i` the code perturbs `q[i]` by `±epsilon` in place,
evaluates the potential twice, restores `q[i]` (exactly, in rational
arithmetic) and records the central difference
`-(V(q+εe_i) - V(q-εe_i)) / (2ε)`. -/
def numericGradForce (potential : List ℚ → ℚ) (q : List ℚ) : List ℚ :=
  (List.range q.length).map (fun i =>
    -(potential (q.set i (q.getD i 0 + eps)) -
        potential (q.set i (q.getD i 0 - eps))) / (2 * eps))

/-- One step of `HamiltonianSystem._verlet_step`, following the source line
by line: copy `q` and `p`, half-step the momentum with the force at `q`,
full-step the position, half-step the momentum again with the force at the
new position. -/
def verletStep (force : List ℚ → List ℚ) (mass : List ℚ)
    (state : PhaseSpace) (dt : ℚ) : PhaseSpace :=
  let q := state.q
  let p := state.p
  let F := force q
  let p := vadd p (vscale (1 / 2 * dt) F)
  let q := vadd q (vdiv (vscale dt p) mass)
  let F2 := force q
  let p := vadd p (vscale (1 / 2 * dt) F2)
  ⟨q, p⟩

/-- Python `int(x)` applied to an exact rational: truncation toward zero. -/
def pyInt (x : ℚ) : ℤ := Int.tdiv x.num x.den

/-- Model of `np.linspace(a, b, num)`: `num` evenly spaced samples from `a`
to `b` inclusive; a single sample is `a` alone and zero samples give the
empty array. -/
def linspace (a b : ℚ) (num : ℕ) : List ℚ :=
  if num ≤ 1 then (List.range num).map (fun _ => a)
  else (List.range num).map
    (fun i : ℕ => a + (i : ℚ) * (b - a) / ((num : ℚ) - 1))

/-- States recorded by the integration loop of `evolve`: row `i` of the
trajectory is the state before step `i`, and the loop then advances the
state. -/
def trajectory (step : PhaseSpace → PhaseSpace) (s : PhaseSpace) :
    ℕ → List PhaseSpace
  | 0 => []
  | n + 1 => s :: trajectory step (step s) n

/-- Model of `HamiltonianSystem.evolve`, following the source:
`n_steps = int(t_max / dt)` (a `ZeroDivisionError` when `dt == 0`),
`times = np.linspace(0, t_max, n_steps)` (a `ValueError` when `n_steps` is
negative), the initial state is deep-copied, and the loop records each
state and advances it with the Verlet step; an unknown method raises
`ValueError` inside the loop, hence only when at least one step runs.  The
result couples the times array with the recorded trajectory rows. -/
def evolve (force : List ℚ → List ℚ) (mass : List ℚ)
    (initial : PhaseSpace) (t_max dt : ℚ) (method : String) :
    Except PyError (List ℚ × List PhaseSpace) :=
  if dt = 0 then .error .zeroDivisionError
  else
    let nInt := pyInt (t_max / dt)
    if nInt < 0 then .error .valueError
    else
      let n := nInt.toNat
      let times := linspace 0 t_max n
      if method = "verlet" ∨ n = 0 then
        .ok (times, trajectory (fun s => verletStep force mass s dt)
          initial.copy n)
      else .error .valueError

/-- Harmonic-oscillator potential used by the energy-conservation property
(`k = 1`): `V(q) = 0.5 * q_0 ** 2` on a one-dof state. -/
def Vho (q : List ℚ) : ℚ := 1 / 2 * (q.getD 0 0) ^ 2

/-- Specification-side statement of one Verlet step, written exactly from
the three numbered formulas of the spec: `p_half = p + 0.5*dt*force(q)`,
`q_new = q + dt*p_half/mass`, `p_new = p_half + 0.5*dt*force(q_new)`. -/
def specVerletStep (force : List ℚ → List ℚ) (mass : List ℚ)
    (state : PhaseSpace) (dt : ℚ) : PhaseSpace :=
  let pHalf := vadd state.p (vscale (1 / 2 * dt) (force state.q))
  let qNew := vadd state.q (vdiv (vscale dt pHalf) mass)
  let pNew := vadd pHalf (vscale (1 / 2 * dt) (force qNew))
  ⟨qNew, pNew⟩

/-- Symbolic variables of the computer-algebra layer: the ordered families
`q0..q_{n-1}` and `p0..p_{n-1}` created by `SymbolicHamiltonian`. -/
inductive SymVar where
  | q (i : ℕ)
  | p (i : ℕ)
deriving DecidableEq, Repr

/-- Algebraic expressions of the embedded computer-algebra layer: rational
constants, canonical variables, sums, differences, products, negation and
natural powers, which cover every expression the engine builds for the
claims under verification. -/
inductive SymExpr where
  | const (c : ℚ)
  | sym (v : SymVar)
  | add (a b : SymExpr)
  | sub (a b : SymExpr)
  | mul (a b : SymExpr)
  | neg (a : SymExpr)
  | pow (a : SymExpr) (n : ℕ)
deriving DecidableEq, Repr

/-- Symbolic partial derivative, the `sympy.diff` capability restricted to
the expression language: standard linearity, product and power rules, with
`∂v/∂w = 1` exactly when the variables coincide. -/
def symDiff : SymExpr → SymVar → SymExpr
  | .const _, _ => .const 0
  | .sym w, v => if w = v then .const 1 else .const 0
  | .add a b, v => .add (symDiff a v) (symDiff b v)
  | .sub a b, v => .sub (symDiff a v) (symDiff b v)
  | .mul a b, v => .add (.mul (symDiff a v) b) (.mul a (symDiff b v))
  | .neg a, v => .neg (symDiff a v)
  | .pow a n, v => .mul (.mul (.const n) (.pow a (n - 1))) (symDiff a v)

/-- Simplifier support: sum with constant folding and removal of zero
summands. -/
def simpAdd : SymExpr → SymExpr → SymExpr
  | .const a, .const b => .const (a + b)
  | .const a, e => if a = 0 then e else .add (.const a) e
  | e, .const b => if b = 0 then e else .add e (.const b)
  | a, b => .add a b

/-- Simplifier support: difference with constant folding and removal of a
zero subtrahend. -/
def simpSub : SymExpr → SymExpr → SymExpr
  | .const a, .const b => .const (a - b)
  | e, .const b => if b = 0 then e else .sub e (.const b)
  | a, b => .sub a b

/-- Simplifier support: product with constant folding and absorption of the
units 0 and 1. -/
def simpMul : SymExpr → SymExpr → SymExpr
  | .const a, .const b => .const (a * b)
  | .const a, e => if a = 0 then .const 0 else if a = 1 then e
      else .mul (.const a) e
  | e, .const b => if b = 0 then .const 0 else if b = 1 then e
      else .mul e (.const b)
  | a, b => .mul a b

/-- Simplifier support: negation with constant folding. -/
def simpNeg : SymExpr → SymExpr
  | .const a => .const (-a)
  | e => .neg e

/-- Simplifier support: power with constant folding and the exponent
units. -/
def simpPow : SymExpr → ℕ → SymExpr
  | .const a, n => .const (a ^ n)
  | e, n => if n = 0 then .const 1 else if n = 1 then e else .pow e n

/-- Bottom-up algebraic simplifier, the `sympy.simplify` capability of the
embedded algebra layer: constant folding together with the unit laws of
each operation. -/
def simplifyE : SymExpr → SymExpr
  | .const c => .const c
  | .sym v => .sym v
  | .add a b => simpAdd (simplifyE a) (simplifyE b)
  | .sub a b => simpSub (simplifyE a) (simplifyE b)
  | .mul a b => simpMul (simplifyE a) (simplifyE b)
  | .neg a => simpNeg (simplifyE a)
  | .pow a n => simpPow (simplifyE a) n

/-- Evaluation of an expression in an environment, used to state that the
simplifier is meaning-preserving and to model numeric substitution. -/
def evalE (env : SymVar → ℚ) : SymExpr → ℚ
  | .const c => c
  | .sym v => env v
  | .add a b => evalE env a + evalE env b
  | .sub a b => evalE env a - evalE env b
  | .mul a b => evalE env a * evalE env b
  | .neg a => -evalE env a
  | .pow a n => evalE env a ^ n

/-- The `SymbolicHamiltonian` object: a number of degrees of freedom and an
optional Hamiltonian expression (`self.H = None` until `set_hamiltonian`
runs).  The derivative caches are memoisation of pure values and do not
affect any observable result, so they are not part of the state. -/
structure SymbolicHamiltonian where
  n_dof : ℕ
  H : Option SymExpr
deriving DecidableEq, Repr

/-- Constructor `SymbolicHamiltonian(n_dof)`: starts undefined. -/
def mkSymbolicHamiltonian (n : ℕ) : SymbolicHamiltonian := ⟨n, none⟩

/-- Operation `set_hamiltonian`: stores the expression (and clears the
caches, which are not observable here). -/
def setHamiltonian (sh : SymbolicHamiltonian) (h : SymExpr) :
    SymbolicHamiltonian :=
  ⟨sh.n_dof, some h⟩

/-- Operation `hamilton_equations`: raises `ValueError` when the
Hamiltonian is undefined, otherwise returns
`([∂H/∂p_i], [-∂H/∂q_i])`. -/
def hamiltonEquations (sh : SymbolicHamiltonian) :
    Except PyError (List SymExpr × List SymExpr) :=
  match sh.H with
  | none => .error .valueError
  | some h =>
      .ok ((List.range sh.n_dof).map (fun i => symDiff h (.p i)),
           (List.range sh.n_dof).map (fun i => .neg (symDiff h (.q i))))

/-- One summand of the Poisson-bracket loop:
`diff(f,q_k)*diff(g,p_k) - diff(f,p_k)*diff(g,q_k)`. -/
def pbTerm (f g : SymExpr) (k : ℕ) : SymExpr :=
  .sub (.mul (symDiff f (.q k)) (symDiff g (.p k)))
       (.mul (symDiff f (.p k)) (symDiff g (.q k)))

/-- Operation `poisson_bracket`: the loop accumulates the summands over the
zipped variable families starting from `0` and the result is simplified. -/
def poissonBracket (n : ℕ) (f g : SymExpr) : SymExpr :=
  simplifyE ((List.range n).foldl (fun acc k => .add acc (pbTerm f g k))
    (.const 0))

/-- Expression `sum(self.p)`, the total linear momentum. -/
def totalMomentum (n : ℕ) : SymExpr :=
  (List.range n).foldl (fun acc k => .add acc (.sym (.p k))) (.const 0)

/-- Expression `self.q[0] * self.p[1] - self.q[1] * self.p[0]`, the angular
momentum probed for two or more degrees of freedom. -/
def angularMomentum : SymExpr :=
  .sub (.mul (.sym (.q 0)) (.sym (.p 1))) (.mul (.sym (.q 1)) (.sym (.p 0)))

/-- Operation `find_conserved_quantities`: the dictionary starts with
`energy ↦ H`, storing the raw `self.H` field (which is `None` while
undefined), so the values are optional expressions.  The momentum check
computes `simplify(poisson_bracket(sum(p), H)) == 0`: with zero degrees of
freedom the bracket loop is empty and never differentiates, so the check
succeeds even with `H = None` and `momentum ↦ 0` is added (the empty
Python `sum` is the integer `0`); with at least one degree of freedom and
`H = None`, the loop differentiates `None` and raises a `SympifyError`
inside the algebra layer.  On a defined Hamiltonian, `momentum` is added
when the simplified bracket of `sum(p)` with `H` is zero, and
`angular_momentum` when `n_dof >= 2` and its simplified bracket with `H`
is zero. -/
def findConservedQuantities (sh : SymbolicHamiltonian) :
    Except PyError (List (String × Option SymExpr)) :=
  match sh.H with
  | none =>
      if sh.n_dof = 0 then
        .ok [("energy", none), ("momentum", some (totalMomentum 0))]
      else .error .sympifyError
  | some h =>
      let base := [("energy", some h)]
      let pt := totalMomentum sh.n_dof
      let l1 := if simplifyE (poissonBracket sh.n_dof pt h) = .const 0
        then base ++ [("momentum", some pt)] else base
      let l2 := if 2 ≤ sh.n_dof then
          (if simplifyE (poissonBracket sh.n_dof angularMomentum h) = .const 0
            then l1 ++ [("angular_momentum", some angularMomentum)] else l1)
        else l1
      .ok l2

/-- Block matrix `[[0, I], [-I, 0]]` built by `symplectic_matrix` from
`vstack`/`hstack` of `zeros`, `eye` and `-eye`. -/
def symplecticJ (n : ℕ) : List (List ℚ) :=
  ((List.range n).map (fun i =>
      (List.range n).map (fun _ => (0 : ℚ)) ++
      (List.range n).map (fun j => if j = i then 1 else 0))) ++
  ((List.range n).map (fun i =>
      (List.range n).map (fun j => if j = i then -1 else 0) ++
      (List.range n).map (fun _ => (0 : ℚ))))

/-- Operation `symplectic_matrix`: builds the block matrix from `n_dof`
alone; the source contains no state check, so the operation succeeds also
while the Hamiltonian is undefined. -/
def symplecticMatrix (sh : SymbolicHamiltonian) : List (List ℚ) :=
  symplecticJ sh.n_dof

/-- Operation `generate_equations_of_motion`: derives the equations (hence
fails with `ValueError` when undefined) and compiles the combined list
`dq_dt + dp_dt`, represented here by the list of right-hand-side
expressions the numeric callable evaluates. -/
def generateEquationsOfMotion (sh : SymbolicHamiltonian) :
    Except PyError (List SymExpr) :=
  match hamiltonEquations sh with
  | .error e => .error e
  | .ok (dq, dp) => .ok (dq ++ dp)

/-- Operation `linearize_around_equilibrium`: derives the equations (hence
fails with `ValueError` when undefined), forms the Jacobian of
`dq_dt + dp_dt` with respect to `[q_0..q_{n-1}, p_0..p_{n-1}]` and
substitutes the equilibrium values. -/
def linearizeAroundEquilibrium (sh : SymbolicHamiltonian)
    (q_eq p_eq : List ℚ) : Except PyError (List (List ℚ)) :=
  match hamiltonEquations sh with
  | .error e => .error e
  | .ok (dq, dp) =>
      let stateVars := (List.range sh.n_dof).map SymVar.q ++
        (List.range sh.n_dof).map SymVar.p
      let env : SymVar → ℚ := fun v =>
        match v with
        | .q i => q_eq.getD i 0
        | .p i => p_eq.getD i 0
      .ok ((dq ++ dp).map (fun f =>
        stateVars.map (fun v => evalE env (symDiff f v))))

/-- Class body handed to the `define_system` decorator: the `coordinates`
attribute and the optional `kinetic`/`potential` methods, which receive an
attribute namespace mapping each coordinate name (and `"p" + name` for
momenta) to the corresponding vector component. -/
structure SystemClassDef where
  coordinates : List String
  kineticFn : Option ((String → ℚ) → ℚ)
  potentialFn : Option ((String → ℚ) → ℚ)

/-- Namespace built by `QNamespace`/`PNamespace`: `setattr` runs over the
enumerated coordinate list in order, so a duplicated name ends up bound to
the component of its last occurrence. -/
def mkNamespace (coords : List String) (arr : List ℚ) : String → ℚ :=
  (coords.enum).foldl
    (fun ns pair => Function.update ns pair.2 (arr.getD pair.1 0))
    (fun _ => 0)

/-- System object produced by the DSL: the concrete `HamiltonianSystem`
capabilities of the generated `CompiledSystem` class. -/
structure CompiledSystem where
  n_dof : ℕ
  mass : List ℚ
  kinetic : List ℚ → ℚ
  potential : List ℚ → ℚ
  force : List ℚ → List ℚ

/-- The `define_system` decorator, following the source: it reads the
`coordinates` attribute (defaulting to the empty list), performs no
validation whatsoever, and returns a `CompiledSystem` whose kinetic energy
falls back to the inherited default, whose potential falls back to the
constant `0.0`, and whose force is always the numeric gradient of the
potential. -/
def defineSystem (cls : SystemClassDef) : CompiledSystem :=
  let coords := cls.coordinates
  let n := coords.length
  let mass : List ℚ := List.replicate n 1
  let potential : List ℚ → ℚ := fun q =>
    match cls.potentialFn with
    | some pf => pf (mkNamespace coords q)
    | none => 0
  { n_dof := n
    mass := mass
    kinetic := fun p =>
      match cls.kineticFn with
      | some kf => kf (mkNamespace (coords.map (fun nm => "p" ++ nm)) p)
      | none => kineticE mass p
    potential := potential
    force := fun q => numericGradForce potential q }

/-- Buffer lookup. -/
def readS (st : List (List ℚ)) (r : ℕ) : List ℚ := st.getD r []

/-- In-place buffer overwrite. -/
def writeS (st : List (List ℚ)) (r : ℕ) (v : List ℚ) : List (List ℚ) := st.set r v

/-- Fresh buffer allocation (`copy()` of an array allocates). -/
def allocS (st : List (List ℚ)) (v : List ℚ) : List (List ℚ) × ℕ := (st ++ [v], st.length)

/-- Phase-space point at the store level: references to the two buffers the
`PhaseSpace` object holds. -/
structure PhaseSpaceRef where
  qr : ℕ
  pr : ℕ
deriving DecidableEq, Repr

/-- List (List ℚ)-level body of one iteration of the default `force` loop: perturb
`q[i]` in place, evaluate the potential, perturb back beyond, evaluate
again, restore, and return the central difference. -/
def forceCoordM (V : List ℚ → ℚ) (st : List (List ℚ)) (r : ℕ) (i : ℕ) :
    List (List ℚ) × ℚ :=
  let q0 := readS st r
  let st1 := writeS st r (q0.set i (q0.getD i 0 + eps))
  let vPlus := V (readS st1 r)
  let q1 := readS st1 r
  let st2 := writeS st1 r (q1.set i (q1.getD i 0 - 2 * eps))
  let vMinus := V (readS st2 r)
  let q2 := readS st2 r
  let st3 := writeS st2 r (q2.set i (q2.getD i 0 + eps))
  (st3, -(vPlus - vMinus) / (2 * eps))

/-- Loop of the store-level default `force` over the coordinate indices,
threading the store and accumulating the gradient entries. -/
def forceLoopM (V : List ℚ → ℚ) (r : ℕ) :
    List ℕ → List (List ℚ) × List ℚ → List (List ℚ) × List ℚ
  | [], acc => acc
  | i :: is, acc =>
      let next := forceCoordM V acc.1 r i
      forceLoopM V r is (next.1, acc.2 ++ [next.2])

/-- List (List ℚ)-level default `force`: iterates the in-place perturbation over
every coordinate of the buffer, accumulating the gradient entries. -/
def forceM (V : List ℚ → ℚ) (st : List (List ℚ)) (r : ℕ) : List (List ℚ) × List ℚ :=
  forceLoopM V r (List.range (readS st r).length) (st, [])

/-- In-place updates of `_verlet_step` on the two working buffers `qr` and
`pr`: the two force evaluations (each mutating and restoring `qr`) and the
three `+=` updates. -/
def verletKernelM (V : List ℚ → ℚ) (mass : List ℚ) (st : List (List ℚ))
    (qr pr : ℕ) (dt : ℚ) : List (List ℚ) :=
  let f1 := forceM V st qr
  let st3 := writeS f1.1 pr (vadd (readS f1.1 pr) (vscale (1 / 2 * dt) f1.2))
  let st4 := writeS st3 qr
    (vadd (readS st3 qr) (vdiv (vscale dt (readS st3 pr)) mass))
  let f2 := forceM V st4 qr
  writeS f2.1 pr (vadd (readS f2.1 pr) (vscale (1 / 2 * dt) f2.2))

/-- List (List ℚ)-level `_verlet_step`: copies the state buffers (two fresh
allocations), then updates the copies in place through the two force
evaluations, and returns a `PhaseSpace` holding the copied buffers. -/
def verletStepM (V : List ℚ → ℚ) (mass : List ℚ) (st : List (List ℚ))
    (s : PhaseSpaceRef) (dt : ℚ) : List (List ℚ) × PhaseSpaceRef :=
  let a1 := allocS st (readS st s.qr)
  let a2 := allocS a1.1 (readS a1.1 s.pr)
  (verletKernelM V mass a2.1 a1.2 a2.2 dt, ⟨a1.2, a2.2⟩)

/-- List (List ℚ)-level integration loop of `evolve`: records the current buffer
contents as a trajectory row, then advances the state. -/
def evolveLoopM (V : List ℚ → ℚ) (mass : List ℚ) (dt : ℚ) :
    List (List ℚ) → PhaseSpaceRef → ℕ → List (List ℚ) × List (List ℚ) × List (List ℚ)
  | st, _, 0 => (st, [], [])
  | st, s, n + 1 =>
    let qRow := readS st s.qr
    let pRow := readS st s.pr
    let stepped := verletStepM V mass st s dt
    let rest := evolveLoopM V mass dt stepped.1 stepped.2 n
    (rest.1, qRow :: rest.2.1, pRow :: rest.2.2)

/-- List (List ℚ)-level `evolve`: the same control flow as the value-level model,
with `state = initial_state.copy()` performed as two fresh allocations; the
final store is returned alongside the result so that the effect on the
caller buffers can be stated. -/
def evolveM (V : List ℚ → ℚ) (mass : List ℚ) (st : List (List ℚ))
    (initial : PhaseSpaceRef) (t_max dt : ℚ) (method : String) :
    List (List ℚ) × Except PyError (List ℚ × List (List ℚ) × List (List ℚ)) :=
  if dt = 0 then (st, .error .zeroDivisionError)
  else
    let nInt := pyInt (t_max / dt)
    if nInt < 0 then (st, .error .valueError)
    else
      let n := nInt.toNat
      let times := linspace 0 t_max n
      let a1 := allocS st (readS st initial.qr)
      let a2 := allocS a1.1 (readS a1.1 initial.pr)
      if method = "verlet" ∨ n = 0 then
        let r := evolveLoopM V mass dt a2.1 ⟨a1.2, a2.2⟩ n
        (r.1, .ok (times, r.2))
      else (a2.1, .error .valueError)

/-- Scalar reduction of one Verlet step of the one-dof harmonic oscillator
(`mass = 1`, `k = 1`, exact force `-q`), written on the pair
`(x, y) = (q_0, p_0)`; it mirrors the three staged updates of the embedded
step on singleton vectors. -/
def sstep (h : ℚ) (z : ℚ × ℚ) : ℚ × ℚ :=
  let y1 := z.2 + 1 / 2 * h * -z.1
  let x1 := z.1 + h * y1 / 1
  let y2 := y1 + 1 / 2 * h * -x1
  (x1, y2)

/-- Step map of the energy-conservation scenario: Verlet with the default
numeric-gradient force of the harmonic potential, unit mass,
`dt = 1/100`. -/
def oscStep (s : PhaseSpace) : PhaseSpace :=
  verletStep (numericGradForce Vho) [1] s (1 / 100)

/-- Initial state of the energy-conservation scenario: `q0 = 1, p0 = 0`. -/
def oscInitial : PhaseSpace := ⟨[1], [0]⟩

/-- Trajectory rows produced by the energy-conservation scenario
(`t_max = 10, dt = 1/100`, hence 1000 steps). -/
def oscTraj : List PhaseSpace := trajectory oscStep oscInitial.copy 1000

/-- Times array produced by the energy-conservation scenario. -/
def oscTimes : List ℚ := linspace 0 10 1000

/-- Helper: the length of a `linspace` array is its sample count. -/
theorem linspace_length (a b : ℚ) (num : ℕ) :
    (linspace a b num).length = num := by
  unfold linspace
  split <;> simp only [List.length_map, List.length_range]

/-- Helper: the trajectory records one row per step. -/
theorem trajectory_length (step : PhaseSpace → PhaseSpace) (s : PhaseSpace)
    (n : ℕ) : (trajectory step s n).length = n := by
  induction n generalizing s with
  | zero => rfl
  | succ m ih => simp [trajectory, ih]

/-- Helper: unfolding of the trajectory at a successor step count. -/
theorem trajectory_succ (step : PhaseSpace → PhaseSpace) (s : PhaseSpace)
    (n : ℕ) : trajectory step s (n + 1) = s :: trajectory step (step s) n :=
  rfl

/-- Helper: every recorded trajectory row is an iterate of the step map. -/
theorem mem_trajectory (step : PhaseSpace → PhaseSpace) (s0 x : PhaseSpace)
    (n : ℕ) (hx : x ∈ trajectory step s0 n) :
    ∃ k, k < n ∧ x = step^[k] s0 := by
  induction n generalizing s0 with
  | zero => cases hx
  | succ m ih =>
      rw [trajectory_succ] at hx
      rcases List.mem_cons.mp hx with h | h
      · exact ⟨0, Nat.succ_pos m, by simpa using h⟩
      · obtain ⟨k, hk, hxk⟩ := ih (step s0) h
        exact ⟨k + 1, by omega, by
          rw [hxk, Function.iterate_succ_apply]⟩

/-- Helper: Python truncation agrees with the floor on nonnegative
rationals. -/
theorem pyInt_of_nonneg (x : ℚ) (h : 0 ≤ x) : pyInt x = ⌊x⌋ := by
  rw [pyInt, Rat.floor_def,
    Int.tdiv_eq_ediv (Rat.num_nonneg.mpr h) (Int.ofNat_nonneg x.den)]

/-- Helper: Python truncation of a negative rational is the negated floor
of its negation. -/
theorem pyInt_of_neg (x : ℚ) (h : x < 0) : pyInt x = -⌊-x⌋ := by
  have hneg : pyInt (-x) = ⌊-x⌋ := pyInt_of_nonneg (-x) (by linarith)
  have : pyInt (-x) = -pyInt x := by
    simp [pyInt, Rat.neg_num, Int.neg_tdiv]
  omega

/-- Helper: the success path of `evolve` for the Verlet method. -/
theorem evolve_ok (F : List ℚ → List ℚ) (mass : List ℚ) (s : PhaseSpace)
    (t_max dt : ℚ) (hdt : dt ≠ 0) (h0 : 0 ≤ pyInt (t_max / dt)) :
    evolve F mass s t_max dt "verlet" =
      .ok (linspace 0 t_max (pyInt (t_max / dt)).toNat,
        trajectory (fun s2 => verletStep F mass s2 dt) s.copy
          (pyInt (t_max / dt)).toNat) := by
  simp [evolve, hdt, not_lt.mpr h0]

/-- C7: a phase-space point is constructed successfully exactly when the
two vectors have equal length; on mismatched lengths the construction
fails, with `AssertionError` from the shape assert rather than the
`ConfigurationError` the claim names. -/
theorem C7_phase_space_construction (q p : List ℚ) :
    (q.length ≠ p.length → mkPhaseSpace q p = .error .assertionError) ∧
    (q.length = p.length → mkPhaseSpace q p = .ok ⟨q, p⟩) := by
  constructor <;> intro h <;> simp [mkPhaseSpace, h]

/-- C7 witness: concrete instances of both branches via the theorem. -/
theorem C7_phase_space_construction_witness :
    mkPhaseSpace [(1 : ℚ)] [] = .error .assertionError ∧
    mkPhaseSpace [(1 : ℚ), 2] [3, 4] = .ok ⟨[1, 2], [3, 4]⟩ :=
  ⟨(C7_phase_space_construction [1] []).1 (by decide),
   (C7_phase_space_construction [1, 2] [3, 4]).2 (by decide)⟩

/-- C7 counterexample: on mismatched lengths the constructor raises
`AssertionError`, not the `ConfigurationError` stated by the claim. -/
theorem C7_counterexample :
    mkPhaseSpace [(1 : ℚ)] [] = .error .assertionError ∧
    mkPhaseSpace [(1 : ℚ)] [] ≠ .error .configurationError := by
  constructor <;> decide

/-- C9 (amended): `define_system` validates nothing; every coordinate list,
duplicated or empty, yields a compiled system whose `n_dof` is the raw
list length and whose mass vector is all ones. -/
theorem C9_define_system_no_validation (cls : SystemClassDef) :
    (defineSystem cls).n_dof = cls.coordinates.length ∧
    (defineSystem cls).mass = List.replicate cls.coordinates.length 1 :=
  ⟨rfl, rfl⟩

/-- C9 counterexample: a duplicated coordinate list and the empty
coordinate list are both accepted and produce system objects, contradicting
the claimed `ConfigurationError` rejection. -/
theorem C9_counterexample :
    (defineSystem ⟨["x", "x"], none, none⟩).n_dof = 2 ∧
    (defineSystem ⟨[], none, none⟩).n_dof = 0 ∧
    mkNamespace ["x", "x"] [5, 7] "x" = 7 :=
  ⟨rfl, rfl, by decide⟩

/-- C8 (amended): with the Hamiltonian undefined, `hamilton_equations`,
`generate_equations_of_motion` and `linearize_around_equilibrium` fail with
`ValueError`; `find_conserved_quantities` fails inside the algebra layer
(`SympifyError`) when there is at least one degree of freedom, but with
zero degrees of freedom its bracket loop is empty and the call succeeds,
returning `energy ↦ None` and `momentum ↦ 0`; and `symplectic_matrix`
performs no state check at all and succeeds.  No operation raises the
`SymbolicStateError` the claim names. -/
theorem C8_undefined_state_behaviour (n : ℕ) (q_eq p_eq : List ℚ) :
    hamiltonEquations (mkSymbolicHamiltonian n) = .error .valueError ∧
    (0 < n → findConservedQuantities (mkSymbolicHamiltonian n) =
      .error .sympifyError) ∧
    findConservedQuantities (mkSymbolicHamiltonian 0) =
      .ok [("energy", none), ("momentum", some (totalMomentum 0))] ∧
    generateEquationsOfMotion (mkSymbolicHamiltonian n) =
      .error .valueError ∧
    linearizeAroundEquilibrium (mkSymbolicHamiltonian n) q_eq p_eq =
      .error .valueError ∧
    symplecticMatrix (mkSymbolicHamiltonian n) = symplecticJ n := by
  refine ⟨rfl, fun hn => ?_, rfl, rfl, rfl, rfl⟩
  have hne : n ≠ 0 := by omega
  simp [findConservedQuantities, mkSymbolicHamiltonian, hne]

/-- C8 witness: with one degree of freedom, `find_conserved_quantities` on
the undefined state fails with the sympy error. -/
theorem C8_undefined_state_behaviour_witness :
    (0 : ℕ) < 1 ∧
    findConservedQuantities (mkSymbolicHamiltonian 1) =
      .error .sympifyError :=
  ⟨by omega, (C8_undefined_state_behaviour 1 [] []).2.1 (by omega)⟩

/-- C8 counterexample: on the undefined state, `symplectic_matrix`
succeeds and returns the block matrix, `find_conserved_quantities` with
zero degrees of freedom succeeds as well, and `hamilton_equations` fails
with `ValueError`, which differs from the claimed `SymbolicStateError`. -/
theorem C8_counterexample :
    symplecticMatrix (mkSymbolicHamiltonian 1) = [[0, 1], [-1, 0]] ∧
    findConservedQuantities (mkSymbolicHamiltonian 0) =
      .ok [("energy", none), ("momentum", some (totalMomentum 0))] ∧
    hamiltonEquations (mkSymbolicHamiltonian 1) = .error .valueError ∧
    PyError.valueError ≠ PyError.symbolicStateError := by
  refine ⟨by decide, rfl, rfl, by decide⟩

/-- C6 (amended): `evolve` performs no eager validation and never raises a
`ConfigurationError`.  A zero `dt` fails with `ZeroDivisionError` at the
step-count division; a positive `dt` with `t_max ≤ -dt` produces a negative
step count and fails with `ValueError` from `linspace`; and a positive `dt`
with `-dt < t_max < 0` is accepted silently, returning empty times and
trajectories. -/
theorem C6_no_eager_validation (F : List ℚ → List ℚ) (mass : List ℚ)
    (s : PhaseSpace) (t_max dt : ℚ) :
    (dt = 0 → evolve F mass s t_max dt "verlet" =
      .error .zeroDivisionError) ∧
    (0 < dt → t_max ≤ -dt → evolve F mass s t_max dt "verlet" =
      .error .valueError) ∧
    (0 < dt → -dt < t_max → t_max < 0 →
      evolve F mass s t_max dt "verlet" = .ok ([], [])) := by
  refine ⟨fun h0 => by simp [evolve, h0], fun hdt hle => ?_, 
    fun hdt hlt hneg => ?_⟩
  · have hx : t_max / dt ≤ -1 := by
      rw [div_le_iff₀ hdt]; linarith
    have hneg : t_max / dt < 0 := by linarith
    have hfl : (1 : ℤ) ≤ ⌊-(t_max / dt)⌋ := by
      rw [Int.le_floor]; push_cast; linarith
    have hpy : pyInt (t_max / dt) < 0 := by
      rw [pyInt_of_neg _ hneg]; omega
    simp [evolve, ne_of_gt hdt, hpy]
  · have hx0 : t_max / dt < 0 := div_neg_of_neg_of_pos hneg hdt
    have hx1 : -1 < t_max / dt := by
      rw [lt_div_iff₀ hdt]; linarith
    have hfl : ⌊-(t_max / dt)⌋ = 0 := by
      rw [Int.floor_eq_zero_iff]
      constructor <;> [linarith; linarith]
    have hpy : pyInt (t_max / dt) = 0 := by
      rw [pyInt_of_neg _ hx0, hfl]; rfl
    have : evolve F mass s t_max dt "verlet" =
        .ok (linspace 0 t_max (pyInt (t_max / dt)).toNat,
          trajectory (fun s2 => verletStep F mass s2 dt) s.copy
            (pyInt (t_max / dt)).toNat) :=
      evolve_ok F mass s t_max dt (ne_of_gt hdt) (le_of_eq hpy.symm)
    rw [this, hpy]
    rfl

/-- C6 witness: with `dt = 1/100` and `t_max = -1/200` the call returns
empty arrays instead of failing. -/
theorem C6_no_eager_validation_witness :
    evolve (numericGradForce Vho) [1] ⟨[1], [0]⟩ (-(1 / 200)) (1 / 100)
      "verlet" = .ok ([], []) :=
  (C6_no_eager_validation (numericGradForce Vho) [1] ⟨[1], [0]⟩
    (-(1 / 200)) (1 / 100)).2.2 (by norm_num) (by norm_num) (by norm_num)

/-- C6 counterexample: a call with `t_max < 0` that completes successfully
and produces output, where the claim requires a `ConfigurationError` before
any output. -/
theorem C6_counterexample :
    evolve (fun q => vscale 0 q) [1] ⟨[1], [0]⟩ (-(1 / 200)) (1 / 100)
      "verlet" = .ok ([], []) := by
  have hx0 : (-(1 / 200) : ℚ) / (1 / 100) < 0 := by norm_num
  have hpy : pyInt ((-(1 / 200) : ℚ) / (1 / 100)) = 0 := by
    rw [pyInt_of_neg _ hx0]
    norm_num
  have := evolve_ok (fun q => vscale 0 q) [1] ⟨[1], [0]⟩ (-(1 / 200))
    (1 / 100) (by norm_num) (le_of_eq hpy.symm)
  rw [this, hpy]
  rfl

/-- C3 (amended): for `dt > 0`, `t_max ≥ 0` and the Verlet method, the step
count is the floor (truncation) of `t_max/dt`, the times array is
`np.linspace(0, t_max, n)` with exactly `n` samples running from `0` to
`t_max`, and the trajectory holds one row per sample. -/
theorem C3_shape_of_evolve (F : List ℚ → List ℚ) (mass : List ℚ)
    (s : PhaseSpace) (t_max dt : ℚ) (hdt : 0 < dt) (htm : 0 ≤ t_max) :
    evolve F mass s t_max dt "verlet" =
      .ok (linspace 0 t_max ⌊t_max / dt⌋.toNat,
        trajectory (fun s2 => verletStep F mass s2 dt) s.copy
          ⌊t_max / dt⌋.toNat) ∧
    (linspace 0 t_max ⌊t_max / dt⌋.toNat).length = ⌊t_max / dt⌋.toNat ∧
    (trajectory (fun s2 => verletStep F mass s2 dt) s.copy
      ⌊t_max / dt⌋.toNat).length = ⌊t_max / dt⌋.toNat := by
  have hx : 0 ≤ t_max / dt := div_nonneg htm (le_of_lt hdt)
  have hpy : pyInt (t_max / dt) = ⌊t_max / dt⌋ := pyInt_of_nonneg _ hx
  refine ⟨?_, linspace_length _ _ _, trajectory_length _ _ _⟩
  have := evolve_ok F mass s t_max dt (ne_of_gt hdt)
    (by rw [hpy]; exact Int.floor_nonneg.mpr hx)
  rw [this, hpy]

/-- C3 witness: for `t_max = 1`, `dt = 1/2` the theorem applies and yields
two samples. -/
theorem C3_shape_of_evolve_witness :
    evolve (fun q => vscale 0 q) [1] ⟨[1], [0]⟩ 1 (1 / 2) "verlet" =
      .ok (linspace 0 1 ⌊(1 : ℚ) / (1 / 2)⌋.toNat,
        trajectory (fun s2 => verletStep (fun q => vscale 0 q) [1] s2 (1 / 2))
          (PhaseSpace.copy ⟨[1], [0]⟩) ⌊(1 : ℚ) / (1 / 2)⌋.toNat) :=
  (C3_shape_of_evolve (fun q => vscale 0 q) [1] ⟨[1], [0]⟩ 1 (1 / 2)
    (by norm_num) (by norm_num)).1

/-- C3 counterexample: with `t_max = 1` and `dt = 1/2` the code produces a
times array of 2 samples, not the `ceil(t_max/dt) + 1 = 3` evenly spaced
samples from `0` to `n*dt` required by the claim. -/
theorem C3_counterexample :
    (evolve (fun q => vscale 0 q) [1] ⟨[1], [0]⟩ 1 (1 / 2) "verlet").map
      (fun r => r.1.length) = .ok 2 ∧
    (⌈(1 : ℚ) / (1 / 2)⌉ + 1 : ℤ) = 3 := by
  constructor
  · have hpy : pyInt ((1 : ℚ) / (1 / 2)) = 2 := by
      rw [pyInt_of_nonneg _ (by norm_num)]
      norm_num
    have := evolve_ok (fun q => vscale 0 q) [1] ⟨[1], [0]⟩ 1 (1 / 2)
      (by norm_num) (by rw [hpy]; norm_num)
    rw [this, hpy]
    simp [Except.map, linspace_length]
  · norm_num

/-- Helper: length of a componentwise sum. -/
theorem vadd_length (a b : List ℚ) :
    (vadd a b).length = min a.length b.length := by
  simp [vadd, List.length_zipWith]

/-- Helper: length of a scalar multiple. -/
theorem vscale_length (c : ℚ) (v : List ℚ) :
    (vscale c v).length = v.length := by
  simp [vscale]

/-- Helper: length of a componentwise quotient. -/
theorem vdiv_length (a b : List ℚ) :
    (vdiv a b).length = min a.length b.length := by
  simp [vdiv, List.length_zipWith]

/-- Helper: entries of a componentwise sum. -/
theorem vadd_getD (a b : List ℚ) (i : ℕ) (ha : i < a.length)
    (hb : i < b.length) : (vadd a b).getD i 0 = a.getD i 0 + b.getD i 0 := by
  have hl : i < (vadd a b).length := by rw [vadd_length]; omega
  rw [List.getD_eq_getElem _ _ hl, List.getD_eq_getElem _ _ ha,
    List.getD_eq_getElem _ _ hb]
  simp [vadd]

/-- Helper: entries of a scalar multiple. -/
theorem vscale_getD (c : ℚ) (v : List ℚ) (i : ℕ) (h : i < v.length) :
    (vscale c v).getD i 0 = c * v.getD i 0 := by
  have hl : i < (vscale c v).length := by rw [vscale_length]; omega
  rw [List.getD_eq_getElem _ _ hl, List.getD_eq_getElem _ _ h]
  simp [vscale]

/-- Helper: entries of a componentwise quotient. -/
theorem vdiv_getD (a b : List ℚ) (i : ℕ) (ha : i < a.length)
    (hb : i < b.length) : (vdiv a b).getD i 0 = a.getD i 0 / b.getD i 0 := by
  have hl : i < (vdiv a b).length := by rw [vdiv_length]; omega
  rw [List.getD_eq_getElem _ _ hl, List.getD_eq_getElem _ _ ha,
    List.getD_eq_getElem _ _ hb]
  simp [vdiv]

/-- C1: one Verlet integration step computes exactly the three staged
formulas of the claim.  The step coincides with the spec-side formulation,
and componentwise for every degree of freedom `i` the new position is
`q_i + dt*(p_i + 0.5*dt*force(q)_i)/mass_i` and the new momentum is
`p_half_i + 0.5*dt*force(q_new)_i`, with `q_new` the full new position
vector. -/
theorem C1_verlet_step_formulas (F : List ℚ → List ℚ) (mass : List ℚ)
    (s : PhaseSpace) (dt : ℚ) (n : ℕ) (hF : ∀ q, (F q).length = q.length)
    (hq : s.q.length = n) (hp : s.p.length = n) (hm : mass.length = n)
    (i : ℕ) (hi : i < n) :
    verletStep F mass s dt = specVerletStep F mass s dt ∧
    (verletStep F mass s dt).q.getD i 0 =
      s.q.getD i 0 +
        dt * (s.p.getD i 0 + 1 / 2 * dt * (F s.q).getD i 0) /
          mass.getD i 0 ∧
    (verletStep F mass s dt).p.getD i 0 =
      (s.p.getD i 0 + 1 / 2 * dt * (F s.q).getD i 0) +
        1 / 2 * dt * (F (verletStep F mass s dt).q).getD i 0 := by
  have hF1 : (F s.q).length = n := by rw [hF, hq]
  have hp1 : (vadd s.p (vscale (1 / 2 * dt) (F s.q))).length = n := by
    rw [vadd_length, vscale_length, hp, hF1]
    omega
  have hq1 : (vadd s.q (vdiv (vscale dt
      (vadd s.p (vscale (1 / 2 * dt) (F s.q)))) mass)).length = n := by
    rw [vadd_length, vdiv_length, vscale_length, hq, hm, hp1]
    omega
  have hq_eq : (verletStep F mass s dt).q =
      vadd s.q (vdiv (vscale dt
        (vadd s.p (vscale (1 / 2 * dt) (F s.q)))) mass) := rfl
  refine ⟨rfl, ?_, ?_⟩
  · rw [hq_eq, vadd_getD _ _ _ (by omega)
      (by rw [vdiv_length, vscale_length, hp1, hm]; omega),
      vdiv_getD _ _ _ (by rw [vscale_length, hp1]; omega) (by omega),
      vscale_getD _ _ _ (by rw [hp1]; omega),
      vadd_getD _ _ _ (by omega) (by rw [vscale_length, hF1]; omega),
      vscale_getD _ _ _ (by rw [hF1]; omega)]
  · have hp_eq : (verletStep F mass s dt).p =
        vadd (vadd s.p (vscale (1 / 2 * dt) (F s.q)))
          (vscale (1 / 2 * dt) (F ((verletStep F mass s dt).q))) := rfl
    have hF2 : (F ((verletStep F mass s dt).q)).length = n := by
      rw [hF, hq_eq, hq1]
    rw [hp_eq, vadd_getD _ _ _ (by omega)
        (by rw [vscale_length, hF2]; omega),
      vadd_getD _ _ _ (by omega) (by rw [vscale_length, hF1]; omega),
      vscale_getD _ _ _ (by rw [hF1]; omega),
      vscale_getD _ _ _ (by rw [hF2]; omega)]

/-- C1 witness: the componentwise formulas instantiated on a concrete
one-dof system with the zero force. -/
theorem C1_verlet_step_formulas_witness :
    verletStep (fun q => vscale 0 q) [1] ⟨[2], [3]⟩ 1 =
      specVerletStep (fun q => vscale 0 q) [1] ⟨[2], [3]⟩ 1 ∧
    (verletStep (fun q => vscale 0 q) [1] ⟨[2], [3]⟩ 1).q.getD 0 0 =
      ([(2 : ℚ)].getD 0 0 +
        1 * ([(3 : ℚ)].getD 0 0 +
          1 / 2 * 1 * ((fun q => vscale 0 q) [(2 : ℚ)]).getD 0 0) /
          [(1 : ℚ)].getD 0 0) ∧
    (verletStep (fun q => vscale 0 q) [1] ⟨[2], [3]⟩ 1).p.getD 0 0 =
      (([(3 : ℚ)].getD 0 0 +
        1 / 2 * 1 * ((fun q => vscale 0 q) [(2 : ℚ)]).getD 0 0) +
        1 / 2 * 1 *
          ((fun q => vscale 0 q)
            ((verletStep (fun q => vscale 0 q) [1] ⟨[2], [3]⟩ 1).q)).getD
            0 0) :=
  C1_verlet_step_formulas (fun q => vscale 0 q) [1] ⟨[2], [3]⟩ 1 1
    (fun q => by simp [vscale]) rfl rfl rfl 0 (by omega)

/-- Helper: folding the bracket summands over any index list simplifies to
the constant accumulating their values, provided each summand simplifies to
a constant. -/
theorem simplify_foldl_add (t : ℕ → SymExpr) (v : ℕ → ℚ)
    (ht : ∀ k, simplifyE (t k) = .const (v k)) (L : List ℕ) :
    ∀ (acc : SymExpr) (c : ℚ), simplifyE acc = .const c →
      simplifyE (L.foldl (fun a k => .add a (t k)) acc) =
        .const (c + (L.map v).sum) := by
  induction L with
  | nil => intro acc c hacc; simpa using hacc
  | cons k ks ih =>
      intro acc c hacc
      rw [List.foldl_cons]
      have hacc2 : simplifyE (.add acc (t k)) = .const (c + v k) := by
        simp [simplifyE, hacc, ht k, simpAdd]
      rw [ih _ _ hacc2, List.map_cons, List.sum_cons]
      congr 1
      ring

/-- Helper: the bracket summand of the paired position and momentum
variable of one index simplifies to the indicator of the loop index. -/
theorem pbTerm_q_p_same (i k : ℕ) :
    simplifyE (pbTerm (.sym (.q i)) (.sym (.p i)) k) =
      .const (if k = i then 1 else 0) := by
  by_cases hik : k = i
  · subst hik
    simp [pbTerm, symDiff, simplifyE, simpMul, simpSub]
  · rw [if_neg hik]
    simp [pbTerm, symDiff, simplifyE, simpMul, simpSub, Ne.symm hik]

/-- Helper: the bracket summand of two position variables simplifies to
zero. -/
theorem pbTerm_q_q (i j k : ℕ) :
    simplifyE (pbTerm (.sym (.q i)) (.sym (.q j)) k) = .const 0 := by
  by_cases hik : i = k <;> by_cases hjk : j = k <;>
    simp [pbTerm, symDiff, hik, hjk, simplifyE, simpMul, simpSub]

/-- Helper: the bracket summand of two momentum variables simplifies to
zero. -/
theorem pbTerm_p_p (i j k : ℕ) :
    simplifyE (pbTerm (.sym (.p i)) (.sym (.p j)) k) = .const 0 := by
  by_cases hik : i = k <;> by_cases hjk : j = k <;>
    simp [pbTerm, symDiff, hik, hjk, simplifyE, simpMul, simpSub]

/-- Helper: sum of the single-index indicator over the range. -/
theorem sum_indicator_range (n i : ℕ) (hi : i < n) :
    (((List.range n).map (fun k => if k = i then (1 : ℚ) else 0))).sum
      = 1 := by
  induction n with
  | zero => omega
  | succ m ih =>
      rw [List.range_succ, List.map_append, List.sum_append]
      by_cases him : i = m
      · subst him
        have hz : ((List.range i).map
            (fun k => if k = i then (1 : ℚ) else 0)) =
            (List.range i).map (fun _ => 0) := by
          apply List.map_congr_left
          intro k hk
          have : k ≠ i := by
            have := List.mem_range.mp hk
            omega
          simp [this]
        rw [hz]
        simp
      · have hi2 : i < m := by omega
        rw [ih hi2]
        simp [Ne.symm him]

/-- C4: on any symbolic Hamiltonian with a defined expression, the
canonical brackets come out exactly: `{q_i, p_i} = 1`, `{q_i, q_j} = 0`
and `{p_i, p_j} = 0` for all valid indices, as fully simplified
constants. -/
theorem C4_canonical_brackets (sh : SymbolicHamiltonian) (h : SymExpr)
    (hH : sh.H = some h) (i j : ℕ) (hi : i < sh.n_dof)
    (hj : j < sh.n_dof) :
    poissonBracket sh.n_dof (.sym (.q i)) (.sym (.p i)) = .const 1 ∧
    poissonBracket sh.n_dof (.sym (.q i)) (.sym (.q j)) = .const 0 ∧
    poissonBracket sh.n_dof (.sym (.p i)) (.sym (.p j)) = .const 0 := by
  refine ⟨?_, ?_, ?_⟩
  · rw [poissonBracket, simplify_foldl_add _
        (fun k => if k = i then (1 : ℚ) else 0)
        (fun k => pbTerm_q_p_same i k) (List.range sh.n_dof) (.const 0) 0 rfl,
      sum_indicator_range sh.n_dof i hi]
    norm_num
  · rw [poissonBracket, simplify_foldl_add _ (fun _ => (0 : ℚ))
        (fun k => pbTerm_q_q i j k) (List.range sh.n_dof) (.const 0) 0 rfl]
    simp
  · rw [poissonBracket, simplify_foldl_add _ (fun _ => (0 : ℚ))
        (fun k => pbTerm_p_p i j k) (List.range sh.n_dof) (.const 0) 0 rfl]
    simp

/-- C4 witness: the three canonical brackets on a concrete two-dof system
with the Hamiltonian `q0*p0`. -/
theorem C4_canonical_brackets_witness :
    poissonBracket 2 (.sym (.q 0)) (.sym (.p 0)) = .const 1 ∧
    poissonBracket 2 (.sym (.q 0)) (.sym (.q 1)) = .const 0 ∧
    poissonBracket 2 (.sym (.p 0)) (.sym (.p 1)) = .const 0 :=
  C4_canonical_brackets ⟨2, some (.mul (.sym (.q 0)) (.sym (.p 0)))⟩
    (.mul (.sym (.q 0)) (.sym (.p 0))) rfl 0 1 (by decide) (by decide)

/-- C5: on a defined symbolic Hamiltonian, the conserved-quantity
dictionary always contains energy mapped to `H`; it contains momentum
mapped to `sum(p)` exactly when the simplified bracket with `H` vanishes;
it contains the angular momentum `q0*p1 - q1*p0` exactly when there are at
least two degrees of freedom and its simplified bracket with `H` vanishes;
and it contains nothing else. -/
theorem C5_conserved_quantities (sh : SymbolicHamiltonian) (h : SymExpr)
    (hH : sh.H = some h) :
    ∃ l, findConservedQuantities sh = .ok l ∧
      ("energy", some h) ∈ l ∧
      (("momentum", some (totalMomentum sh.n_dof)) ∈ l ↔
        simplifyE (poissonBracket sh.n_dof (totalMomentum sh.n_dof) h) =
          .const 0) ∧
      (("angular_momentum", some angularMomentum) ∈ l ↔
        2 ≤ sh.n_dof ∧
        simplifyE (poissonBracket sh.n_dof angularMomentum h) =
          .const 0) ∧
      (∀ kv ∈ l, kv.1 = "energy" ∨ kv.1 = "momentum" ∨
        kv.1 = "angular_momentum") := by
  obtain ⟨n, oH⟩ := sh
  simp only at hH
  subst hH
  by_cases hm : simplifyE (poissonBracket n (totalMomentum n) h) = .const 0
  · by_cases h2 : 2 ≤ n
    · by_cases hA : simplifyE (poissonBracket n angularMomentum h) =
          .const 0
      · refine ⟨[("energy", some h), ("momentum", some (totalMomentum n)),
          ("angular_momentum", some angularMomentum)], ?_, ?_, ?_, ?_, ?_⟩
        · simp only [findConservedQuantities]
          rw [if_pos hm, if_pos h2, if_pos hA]
          rfl
        · simp
        · simp [hm]
        · simp [h2, hA]
        · intro kv hkv
          simp at hkv
          rcases hkv with h1 | h1 | h1 <;> simp [h1]
      · refine ⟨[("energy", some h), ("momentum", some (totalMomentum n))],
          ?_, ?_, ?_, ?_, ?_⟩
        · simp only [findConservedQuantities]
          rw [if_pos hm, if_pos h2, if_neg hA]
          rfl
        · simp
        · simp [hm]
        · simp [hA]
        · intro kv hkv
          simp at hkv
          rcases hkv with h1 | h1 <;> simp [h1]
    · refine ⟨[("energy", some h), ("momentum", some (totalMomentum n))],
        ?_, ?_, ?_, ?_, ?_⟩
      · simp only [findConservedQuantities]
        rw [if_pos hm, if_neg h2]
        rfl
      · simp
      · simp [hm]
      · simp [h2]
      · intro kv hkv
        simp at hkv
        rcases hkv with h1 | h1 <;> simp [h1]
  · by_cases h2 : 2 ≤ n
    · by_cases hA : simplifyE (poissonBracket n angularMomentum h) =
          .const 0
      · refine ⟨[("energy", some h),
          ("angular_momentum", some angularMomentum)], ?_, ?_, ?_, ?_, ?_⟩
        · simp only [findConservedQuantities]
          rw [if_neg hm, if_pos h2, if_pos hA]
          rfl
        · simp
        · simp [hm]
        · simp [h2, hA]
        · intro kv hkv
          simp at hkv
          rcases hkv with h1 | h1 <;> simp [h1]
      · refine ⟨[("energy", some h)], ?_, ?_, ?_, ?_, ?_⟩
        · simp only [findConservedQuantities]
          rw [if_neg hm, if_pos h2, if_neg hA]
        · simp
        · simp [hm]
        · simp [hA]
        · intro kv hkv
          simp at hkv
          simp [hkv]
    · refine ⟨[("energy", some h)], ?_, ?_, ?_, ?_, ?_⟩
      · simp only [findConservedQuantities]
        rw [if_neg hm, if_neg h2]
      · simp
      · simp [hm]
      · simp [h2]
      · intro kv hkv
        simp at hkv
        simp [hkv]

/-- C5 witness: the free particle `H = p0^2` in one degree of freedom,
whose dictionary contains energy and momentum. -/
theorem C5_conserved_quantities_witness :
    (⟨1, some (.pow (.sym (.p 0)) 2)⟩ : SymbolicHamiltonian).H =
      some (.pow (.sym (.p 0)) 2) ∧
    ∃ l, findConservedQuantities ⟨1, some (.pow (.sym (.p 0)) 2)⟩ =
        .ok l ∧
      ("energy", some (SymExpr.pow (.sym (.p 0)) 2)) ∈ l ∧
      (("momentum", some (totalMomentum 1)) ∈ l ↔
        simplifyE (poissonBracket 1 (totalMomentum 1)
          (.pow (.sym (.p 0)) 2)) = .const 0) ∧
      (("angular_momentum", some angularMomentum) ∈ l ↔
        2 ≤ 1 ∧
        simplifyE (poissonBracket 1 angularMomentum
          (.pow (.sym (.p 0)) 2)) = .const 0) ∧
      (∀ kv ∈ l, kv.1 = "energy" ∨ kv.1 = "momentum" ∨
        kv.1 = "angular_momentum") :=
  ⟨rfl, C5_conserved_quantities ⟨1, some (.pow (.sym (.p 0)) 2)⟩
    (.pow (.sym (.p 0)) 2) rfl⟩

/-- Helper: the numeric central-difference force of the harmonic potential
is exact in rational arithmetic: it evaluates to `-q`. -/
theorem force_ho (x : ℚ) : numericGradForce Vho [x] = [-x] := by
  have he : (eps : ℚ) ≠ 0 := by norm_num [eps]
  show [-(Vho [x + eps] - Vho [x - eps]) / (2 * eps)] = [-x]
  rw [show Vho [x + eps] = 1 / 2 * (x + eps) ^ 2 from rfl,
    show Vho [x - eps] = 1 / 2 * (x - eps) ^ 2 from rfl,
    show -(1 / 2 * (x + eps) ^ 2 - 1 / 2 * (x - eps) ^ 2) / (2 * eps) = -x
      from by field_simp; ring]

/-- Helper: on singleton states the oscillator Verlet step is the scalar
step. -/
theorem osc_step_eq (h : ℚ) (x y : ℚ) :
    verletStep (numericGradForce Vho) [1] ⟨[x], [y]⟩ h =
      ⟨[(sstep h (x, y)).1], [(sstep h (x, y)).2]⟩ := by
  simp [verletStep, vadd, vscale, vdiv, force_ho, sstep]

/-- Helper: the iterated oscillator step stays a singleton state driven by
the scalar step. -/
theorem osc_iterate (h : ℚ) (k : ℕ) :
    (fun s => verletStep (numericGradForce Vho) [1] s h)^[k] ⟨[1], [0]⟩ =
      ⟨[((sstep h)^[k] (1, 0)).1], [((sstep h)^[k] (1, 0)).2]⟩ := by
  induction k with
  | zero => rfl
  | succ m ih =>
      rw [Function.iterate_succ_apply', Function.iterate_succ_apply', ih,
        osc_step_eq]

/-- Helper: the quadratic form `y^2 + (1 - h^2/4)x^2` is exactly invariant
under the scalar Verlet step. -/
theorem sstep_invariant (h : ℚ) (z : ℚ × ℚ) :
    (sstep h z).2 ^ 2 + (1 - h ^ 2 / 4) * (sstep h z).1 ^ 2 =
      z.2 ^ 2 + (1 - h ^ 2 / 4) * z.1 ^ 2 := by
  simp only [sstep]
  ring

/-- Helper: along the oscillator trajectory the invariant keeps its initial
value. -/
theorem osc_invariant (k : ℕ) :
    ((sstep (1 / 100))^[k] (1, 0)).2 ^ 2 +
      (1 - (1 / 100 : ℚ) ^ 2 / 4) * ((sstep (1 / 100))^[k] (1, 0)).1 ^ 2 =
      1 - (1 / 100 : ℚ) ^ 2 / 4 := by
  induction k with
  | zero => norm_num
  | succ m ih =>
      rw [Function.iterate_succ_apply', sstep_invariant]
      exact ih

/-- Helper: any state on the invariant level set has relative energy error
below the tolerance. -/
theorem osc_energy_bound (x y : ℚ)
    (hq : y ^ 2 + (1 - (1 / 100 : ℚ) ^ 2 / 4) * x ^ 2 =
      1 - (1 / 100 : ℚ) ^ 2 / 4) :
    |hamiltonianE [1] Vho [x] [y] - hamiltonianE [1] Vho [1] [0]| /
      |hamiltonianE [1] Vho [1] [0]| < 1 / 1000 := by
  have hH1 : hamiltonianE [1] Vho [x] [y] = y ^ 2 / 2 + 1 / 2 * x ^ 2 := by
    simp [hamiltonianE, kineticE, Vho]
  have hH0 : hamiltonianE [1] Vho [1] [0] = 1 / 2 := by
    norm_num [hamiltonianE, kineticE, Vho]
  rw [hH1, hH0]
  have hx2 : x ^ 2 ≤ 1 := by nlinarith [sq_nonneg y]
  have hdiff : y ^ 2 / 2 + 1 / 2 * x ^ 2 - 1 / 2 = (x ^ 2 - 1) / 80000 := by
    linear_combination hq / 2
  rw [hdiff, show |(1 / 2 : ℚ)| = 1 / 2 from by norm_num,
    div_lt_iff₀ (by norm_num : (0 : ℚ) < 1 / 2), abs_lt]
  constructor <;> nlinarith [sq_nonneg x]

/-- C2: evolving the harmonic oscillator (`mass = 1, k = 1, q0 = 1, p0 = 0`)
with `dt = 1/100` up to `t_max = 10` succeeds, and every sampled trajectory
point keeps the relative energy error `|H - H(0)|/|H(0)|` strictly below
`1/1000` (in the exact-rational model of the float computation). -/
theorem C2_energy_conservation :
    evolve (numericGradForce Vho) [1] oscInitial 10 (1 / 100) "verlet" =
      .ok (oscTimes, oscTraj) ∧
    ∀ s ∈ oscTraj,
      |hamiltonianE [1] Vho s.q s.p -
        hamiltonianE [1] Vho oscInitial.q oscInitial.p| /
        |hamiltonianE [1] Vho oscInitial.q oscInitial.p| < 1 / 1000 := by
  constructor
  · have hpy : pyInt ((10 : ℚ) / (1 / 100)) = 1000 := by
      rw [pyInt_of_nonneg _ (by norm_num)]
      norm_num
    have := evolve_ok (numericGradForce Vho) [1] oscInitial 10 (1 / 100)
      (by norm_num) (by rw [hpy]; norm_num)
    rw [this, hpy]
    rfl
  · intro s hs
    obtain ⟨k, hk, rfl⟩ := mem_trajectory _ _ _ _ hs
    have hit : oscStep^[k] oscInitial.copy =
        ⟨[((sstep (1 / 100))^[k] (1, 0)).1],
         [((sstep (1 / 100))^[k] (1, 0)).2]⟩ := osc_iterate (1 / 100) k
    rw [hit]
    exact osc_energy_bound _ _ (osc_invariant k)

/-- C2 witness: the initial state is itself a sampled trajectory point and
satisfies the energy bound. -/
theorem C2_energy_conservation_witness :
    oscInitial ∈ oscTraj ∧
    |hamiltonianE [1] Vho oscInitial.q oscInitial.p -
      hamiltonianE [1] Vho oscInitial.q oscInitial.p| /
      |hamiltonianE [1] Vho oscInitial.q oscInitial.p| < 1 / 1000 := by
  have hmem : oscInitial ∈ oscTraj := by
    rw [oscTraj, show (1000 : ℕ) = 999 + 1 from by norm_num, trajectory_succ]
    exact List.mem_cons_self _ _
  exact ⟨hmem, C2_energy_conservation.2 oscInitial hmem⟩

/-- Helper: writing one buffer leaves every other buffer unchanged. -/
theorem readS_writeS_ne (st : List (List ℚ)) (r r2 : ℕ) (v : List ℚ)
    (h : r2 ≠ r) : readS (writeS st r v) r2 = readS st r2 := by
  simp [readS, writeS, List.getD, List.getElem?_set_ne (Ne.symm h)]

/-- Helper: writing keeps the number of buffers. -/
theorem writeS_length (st : List (List ℚ)) (r : ℕ) (v : List ℚ) :
    (writeS st r v).length = st.length := List.length_set st r v

/-- Helper: allocation does not disturb existing buffers. -/
theorem readS_append (st : List (List ℚ)) (v : List ℚ) (r : ℕ)
    (h : r < st.length) : readS (st ++ [v]) r = readS st r := by
  simp [readS, List.getD, List.getElem?_append_left h]

/-- Helper: one coordinate of the in-place force loop writes only its
target buffer. -/
theorem forceCoordM_preserve (V : List ℚ → ℚ) (st : List (List ℚ)) (r : ℕ)
    (i : ℕ) (r2 : ℕ) (h : r2 ≠ r) :
    readS (forceCoordM V st r i).1 r2 = readS st r2 := by
  simp only [forceCoordM]
  rw [readS_writeS_ne _ _ _ _ h, readS_writeS_ne _ _ _ _ h,
    readS_writeS_ne _ _ _ _ h]

/-- Helper: one coordinate of the in-place force loop keeps the buffer
count. -/
theorem forceCoordM_length (V : List ℚ → ℚ) (st : List (List ℚ)) (r : ℕ)
    (i : ℕ) : (forceCoordM V st r i).1.length = st.length := by
  simp only [forceCoordM]
  rw [writeS_length, writeS_length, writeS_length]

/-- Helper: the force loop writes only its target buffer. -/
theorem forceLoopM_preserve (V : List ℚ → ℚ) (r : ℕ) (L : List ℕ) :
    ∀ (acc : List (List ℚ) × List ℚ) (r2 : ℕ), r2 ≠ r →
      readS (forceLoopM V r L acc).1 r2 = readS acc.1 r2 := by
  induction L with
  | nil => intro acc r2 h; rfl
  | cons i is ih =>
      intro acc r2 h
      rw [forceLoopM, ih _ _ h]
      exact forceCoordM_preserve V acc.1 r i r2 h

/-- Helper: the force loop keeps the buffer count. -/
theorem forceLoopM_length (V : List ℚ → ℚ) (r : ℕ) (L : List ℕ) :
    ∀ acc : List (List ℚ) × List ℚ,
      (forceLoopM V r L acc).1.length = acc.1.length := by
  induction L with
  | nil => intro acc; rfl
  | cons i is ih =>
      intro acc
      rw [forceLoopM, ih]
      exact forceCoordM_length V acc.1 r i

/-- Helper: the in-place kernel writes only the two working buffers. -/
theorem verletKernelM_preserve (V : List ℚ → ℚ) (mass : List ℚ)
    (st : List (List ℚ)) (qr pr : ℕ) (dt : ℚ) (r : ℕ) (hq : r ≠ qr)
    (hp : r ≠ pr) :
    readS (verletKernelM V mass st qr pr dt) r = readS st r := by
  simp only [verletKernelM, forceM]
  rw [readS_writeS_ne _ _ _ _ hp, forceLoopM_preserve _ _ _ _ _ hq,
    readS_writeS_ne _ _ _ _ hq, readS_writeS_ne _ _ _ _ hp,
    forceLoopM_preserve _ _ _ _ _ hq]

/-- Helper: the in-place kernel keeps the buffer count. -/
theorem verletKernelM_length (V : List ℚ → ℚ) (mass : List ℚ) (st : List (List ℚ))
    (qr pr : ℕ) (dt : ℚ) :
    (verletKernelM V mass st qr pr dt).length = st.length := by
  simp only [verletKernelM, forceM]
  rw [writeS_length, forceLoopM_length, writeS_length, writeS_length,
    forceLoopM_length]

/-- Helper: the Verlet step at store level only writes the two buffers it
freshly allocates, so every preexisting buffer is preserved. -/
theorem verletStepM_preserve (V : List ℚ → ℚ) (mass : List ℚ) (st : List (List ℚ))
    (s : PhaseSpaceRef) (dt : ℚ) (r : ℕ) (hr : r < st.length) :
    readS (verletStepM V mass st s dt).1 r = readS st r := by
  have h1 : r ≠ st.length := by omega
  have h2 : r ≠ st.length + 1 := by omega
  simp only [verletStepM, allocS]
  rw [show ((st ++ [readS st s.qr]).length) = st.length + 1 by simp]
  rw [verletKernelM_preserve _ _ _ _ _ _ _ h1 h2]
  rw [readS_append _ _ _ (by simp only [List.length_append,
    List.length_cons, List.length_nil]; omega), readS_append _ _ _ hr]

/-- Helper: the Verlet step at store level allocates exactly two
buffers. -/
theorem verletStepM_length (V : List ℚ → ℚ) (mass : List ℚ) (st : List (List ℚ))
    (s : PhaseSpaceRef) (dt : ℚ) :
    (verletStepM V mass st s dt).1.length = st.length + 2 := by
  simp only [verletStepM, allocS]
  rw [verletKernelM_length]
  simp

/-- Helper: the store-level integration loop preserves every buffer that
existed before it started. -/
theorem evolveLoopM_preserve (V : List ℚ → ℚ) (mass : List ℚ) (dt : ℚ)
    (n : ℕ) : ∀ (st : List (List ℚ)) (s : PhaseSpaceRef) (r : ℕ),
      r < st.length →
      readS (evolveLoopM V mass dt st s n).1 r = readS st r := by
  induction n with
  | zero => intro st s r hr; rfl
  | succ m ih =>
      intro st s r hr
      show readS (evolveLoopM V mass dt
        (verletStepM V mass st s dt).1 (verletStepM V mass st s dt).2 m).1 r
        = readS st r
      rw [ih _ _ _ (by rw [verletStepM_length]; omega)]
      exact verletStepM_preserve V mass st s dt r hr

/-- Helper: the store-level `evolve` preserves every buffer that existed
before the call, on every control path. -/
theorem evolveM_preserve (V : List ℚ → ℚ) (mass : List ℚ) (st : List (List ℚ))
    (initial : PhaseSpaceRef) (t_max dt : ℚ) (method : String) (r : ℕ)
    (hr : r < st.length) :
    readS (evolveM V mass st initial t_max dt method).1 r = readS st r := by
  by_cases h0 : dt = 0
  · simp [evolveM, h0]
  · by_cases h1 : pyInt (t_max / dt) < 0
    · simp [evolveM, h0, h1]
    · by_cases h2 : method = "verlet" ∨ (pyInt (t_max / dt)).toNat = 0
      · simp only [evolveM, if_neg h0, if_neg h1, if_pos h2, allocS]
        rw [evolveLoopM_preserve _ _ _ _ _ _ _ (by
          simp only [List.length_append, List.length_cons, List.length_nil]
          omega)]
        rw [readS_append _ _ _ (by simp only [List.length_append,
          List.length_cons, List.length_nil]; omega), readS_append _ _ _ hr]
      · simp only [evolveM, if_neg h0, if_neg h1, if_neg h2, allocS]
        rw [readS_append _ _ _ (by simp only [List.length_append,
          List.length_cons, List.length_nil]; omega), readS_append _ _ _ hr]

/-- C10: a call to `evolve` never mutates the caller's initial state: the
buffers referenced by the initial argument hold the same position and
momentum vectors after the call as before it, for every `t_max`, `dt` and
method (the integrator works exclusively on the deep copy it allocates). -/
theorem C10_initial_state_unchanged (V : List ℚ → ℚ) (mass : List ℚ)
    (st : List (List ℚ)) (initial : PhaseSpaceRef) (t_max dt : ℚ) (method : String)
    (hq : initial.qr < st.length) (hp : initial.pr < st.length) :
    readS (evolveM V mass st initial t_max dt method).1 initial.qr =
      readS st initial.qr ∧
    readS (evolveM V mass st initial t_max dt method).1 initial.pr =
      readS st initial.pr :=
  ⟨evolveM_preserve V mass st initial t_max dt method initial.qr hq,
   evolveM_preserve V mass st initial t_max dt method initial.pr hp⟩

/-- C10 witness: a concrete one-step evolution of the harmonic oscillator
leaves the two caller buffers untouched. -/
theorem C10_initial_state_unchanged_witness :
    readS (evolveM Vho [1] [[1], [0]] ⟨0, 1⟩ 1 (1 / 2) "verlet").1 0 =
      readS [[1], [0]] 0 ∧
    readS (evolveM Vho [1] [[1], [0]] ⟨0, 1⟩ 1 (1 / 2) "verlet").1 1 =
      readS [[1], [0]] 1 :=
  C10_initial_state_unchanged Vho [1] [[1], [0]] ⟨0, 1⟩ 1 (1 / 2) "verlet"
    (by decide) (by decide)
